import Mathlib

/-!
A shallow embedding of the lexical-scope and symbol-resolution engine in
src/compiler/can/src/scope.rs, together with theorems about its behaviour.
Types that scope.rs uses but whose sources are not part of the repository
(IdentIds, Symbol, VecMap, Alias, the abilities store) are modelled from the
specification and carry a doc comment saying so.
-/

deriving instance DecidableEq for Except

namespace Roc

/-- Source-location span (roc_region::all::Region), abstracted to a number. -/
abbrev Region := Nat

/-- Index of an identifier-table entry (roc_module::symbol::IdentId). -/
abbrev IdentId := Nat

/-- Identifier of a module (roc_module::symbol::ModuleId). -/
abbrev ModuleId := Nat

/-- A value together with the source region it came from (roc_region::all::Loc). -/
structure Loc (α : Type) where
  region : Region
  value : α
deriving DecidableEq

/-- Modelled from the spec: a Symbol is a pair (owning-module identifier, local
identifier index); roc_module::symbol::Symbol is outside src/. -/
structure Symbol where
  module : ModuleId
  identId : IdentId
deriving DecidableEq

/-- Modelled from the spec: the Identifier Table (roc_module::symbol::IdentIds
is outside src/); an append-only list of entries, one per allocation, holding
the textual name, or none for a generated identifier with no stable textual
name. -/
abbrev IdentIds := List (Option String)

/-- Modelled from the spec: all entries ever allocated for a name, in
allocation order (lookup_all / get_id_many). -/
def IdentIds.getIdMany (ids : IdentIds) (name : String) : List IdentId :=
  (List.range ids.length).filter (fun i => decide (ids.getD i none = some name))

/-- Modelled from the spec: the first entry allocated for a name, if any
(get_id). -/
def IdentIds.getId (ids : IdentIds) (name : String) : Option IdentId :=
  (ids.getIdMany name).head?

/-- ScopedIdentIds from scope.rs: the identifier table with a parallel
visibility flag and region per entry. -/
structure ScopedIdentIds where
  ident_ids : IdentIds
  in_scope : List Bool
  regions : List Region
  home : ModuleId
deriving DecidableEq

/-- ScopedIdentIds::from_ident_ids: every pre-seeded entry starts invisible
with the zero region. -/
def ScopedIdentIds.fromIdentIds (home : ModuleId) (ids : IdentIds) : ScopedIdentIds :=
  { ident_ids := ids
    in_scope := List.replicate ids.length false
    regions := List.replicate ids.length 0
    home := home }

/-- ScopedIdentIds::snapshot: the current table length. -/
def ScopedIdentIds.snapshot (s : ScopedIdentIds) : Nat :=
  s.ident_ids.length

/-- The visibility flags after ScopedIdentIds::revert: the flag of every entry
with index at or after the snapshot is cleared, the rest are kept. -/
def revertFlags : List Bool → Nat → List Bool
  | [], _ => []
  | _ :: rest, 0 => false :: revertFlags rest 0
  | b :: rest, n + 1 => b :: revertFlags rest n

/-- ScopedIdentIds::revert. -/
def ScopedIdentIds.revert (s : ScopedIdentIds) (snap : Nat) : ScopedIdentIds :=
  { s with in_scope := revertFlags s.in_scope snap }

/-- ScopedIdentIds::has_in_scope: the first currently visible entry allocated
for the name, as a Symbol with its recorded region. -/
def ScopedIdentIds.hasInScope (s : ScopedIdentIds) (name : String) : Option (Symbol × Region) :=
  (s.ident_ids.getIdMany name).findSome? (fun i =>
    if s.in_scope.getD i false then some (⟨s.home, i⟩, s.regions.getD i 0) else none)

/-- ScopedIdentIds::idents_in_scope: the names of the currently visible
entries, in table order. -/
def ScopedIdentIds.identsInScope (s : ScopedIdentIds) : List String :=
  (List.range s.ident_ids.length).filterMap (fun i =>
    if s.in_scope.getD i false then some ((s.ident_ids.getD i none).getD "") else none)

/-- ScopedIdentIds::introduce_into_scope: allocate a new entry, visible, with
the given region. -/
def ScopedIdentIds.introduceIntoScope (s : ScopedIdentIds) (name : String) (region : Region) :
    IdentId × ScopedIdentIds :=
  (s.ident_ids.length,
   { s with
     ident_ids := s.ident_ids ++ [some name]
     in_scope := s.in_scope ++ [true]
     regions := s.regions ++ [region] })

/-- ScopedIdentIds::scopeless_symbol: allocate a new entry that is not
introduced to the scope. -/
def ScopedIdentIds.scopelessSymbol (s : ScopedIdentIds) (name : String) (region : Region) :
    Symbol × ScopedIdentIds :=
  (⟨s.home, s.ident_ids.length⟩,
   { s with
     ident_ids := s.ident_ids ++ [some name]
     in_scope := s.in_scope ++ [false]
     regions := s.regions ++ [region] })

/-- ScopedIdentIds::gen_unique: allocate an invisible entry with no stable
textual name and the zero region. -/
def ScopedIdentIds.genUnique (s : ScopedIdentIds) : IdentId × ScopedIdentIds :=
  (s.ident_ids.length,
   { s with
     ident_ids := s.ident_ids ++ [none]
     in_scope := s.in_scope ++ [false]
     regions := s.regions ++ [0] })

/-- Modelled from the spec: the Abilities Store collaborator; it answers
is_ability_member_name and records register_specializing_symbol links. -/
structure AbilitiesStore where
  members : List Symbol
  specializations : List (Symbol × Symbol)
deriving DecidableEq

/-- Modelled from the spec: whether the symbol is a registered ability-member
name. -/
def AbilitiesStore.isAbilityMemberName (st : AbilitiesStore) (s : Symbol) : Bool :=
  st.members.contains s

/-- Modelled from the spec: record that a fresh symbol specializes an
ability-member symbol. -/
def AbilitiesStore.registerSpecializingSymbol (st : AbilitiesStore) (specializing member : Symbol) :
    AbilitiesStore :=
  { st with specializations := st.specializations ++ [(specializing, member)] }

/-- Modelled from the spec: the underlying type expression of an alias
(roc_types::types::Type is outside src/); only its free type variables matter
here. -/
inductive RType where
  | tvar : Nat → RType
  | tapp : RType → RType → RType
  | tunit : RType
deriving DecidableEq

/-- Modelled from the spec: the free type variables of a type expression, as
variables_detail collects them. -/
def RType.typeVariables : RType → List Nat
  | .tvar v => [v]
  | .tapp a b => a.typeVariables ++ b.typeVariables
  | .tunit => []

/-- The kind of a type alias. -/
inductive AliasKind where
  | Structural
  | Opaque
deriving DecidableEq

/-- Modelled from the spec: an alias definition (roc_types::types::Alias is
outside src/): declaring region, type-variable list, derived lambda-set and
recursion variables, body, and kind. -/
structure Alias where
  region : Region
  type_variables : List (Loc (String × Nat))
  lambda_set_variables : List Nat
  recursion_variables : List Nat
  typ : RType
  kind : AliasKind
deriving DecidableEq

/-- Modelled from the spec: the header location of an alias declaration, the
region Alias::header_region reports for a structural alias. -/
def Alias.headerRegion (a : Alias) : Region :=
  a.region

/-- Modelled from the spec: insertion into the insertion-ordered alias map
(roc_collections::VecMap is outside src/): overwrite the value of an existing
key in place, otherwise append. -/
def vecMapInsert (m : List (Symbol × Alias)) (k : Symbol) (v : Alias) : List (Symbol × Alias) :=
  if m.any (fun p => decide (p.1 = k)) then m.map (fun p => if p.1 = k then (k, v) else p)
  else m ++ [(k, v)]

/-- Modelled from the spec: lookup in the insertion-ordered alias map. -/
def vecMapGet (m : List (Symbol × Alias)) (k : Symbol) : Option Alias :=
  m.findSome? (fun p => if p.1 = k then some p.2 else none)

/-- The canonicalization errors scope.rs produces
(roc_problem::can::RuntimeError, restricted to those variants). -/
inductive RuntimeError where
  | LookupNotInScope : Loc String → List String → RuntimeError
  | OpaqueNotDefined : Loc String → List String → Option Region → RuntimeError
  | OpaqueOutsideScope : String → Region → Region → RuntimeError
deriving DecidableEq

/-- Modelled from the spec: Symbol::default_in_scope() (outside src/), the
built-in imports every new scope starts with; the names follow the
repository's default_idents_in_scope test, the symbols live in a builtin
module. -/
def defaultInScope : List (String × Symbol × Region) :=
  [("Box", ⟨100, 0⟩, 0), ("Set", ⟨100, 1⟩, 0), ("Dict", ⟨100, 2⟩, 0),
   ("Str", ⟨100, 3⟩, 0), ("Ok", ⟨100, 4⟩, 0), ("False", ⟨100, 5⟩, 0),
   ("List", ⟨100, 6⟩, 0), ("True", ⟨100, 7⟩, 0), ("Err", ⟨100, 8⟩, 0)]

/-- The Scope facade from scope.rs. -/
structure Scope where
  aliases : List (Symbol × Alias)
  abilities_store : AbilitiesStore
  home : ModuleId
  exposed_ident_count : Nat
  imports : List (String × Symbol × Region)
  locals : ScopedIdentIds
deriving DecidableEq

/-- Scope::new: the first exposed_ident_count identifiers are the pre-seeded
exposed ones; the imports start as the built-in defaults. -/
def Scope.new (home : ModuleId) (initial_ident_ids : IdentIds) : Scope :=
  { home := home
    exposed_ident_count := initial_ident_ids.length
    locals := ScopedIdentIds.fromIdentIds home initial_ident_ids
    aliases := []
    abilities_store := { members := [], specializations := [] }
    imports := defaultInScope }

/-- The loop over the import table in Scope::scope_contains / Scope::import:
the first entry for the name, with its Symbol and Region. -/
def lookupImport : List (String × Symbol × Region) → String → Option (Symbol × Region)
  | [], _ => none
  | (n, sym, reg) :: rest, ident =>
    if n = ident then some (sym, reg) else lookupImport rest ident

/-- Scope::scope_contains: locals first, then the import table. -/
def Scope.scopeContains (s : Scope) (ident : String) : Option (Symbol × Region) :=
  match s.locals.hasInScope ident with
  | some found => some found
  | none => lookupImport s.imports ident

/-- Scope::idents_in_scope: the imported names, then the visible local
names. -/
def Scope.identsInScope (s : Scope) : List String :=
  s.imports.map (fun t => t.1) ++ s.locals.identsInScope

/-- Scope::lookup. -/
def Scope.lookup (s : Scope) (ident : String) (region : Region) : Except RuntimeError Symbol :=
  match s.scopeContains ident with
  | some (symbol, _) => .ok symbol
  | none => .error (.LookupNotInScope ⟨region, ident⟩ s.identsInScope)

/-- Scope::commit_introduction: an exposed identifier reuses the IdentId other
modules already depend on; any other identifier gets a fresh table entry. -/
def Scope.commitIntroduction (s : Scope) (ident : String) (region : Region) : Symbol × Scope :=
  match s.locals.ident_ids.getId ident with
  | some ident_id =>
    if ident_id < s.exposed_ident_count then
      (⟨s.home, ident_id⟩,
       { s with locals := { s.locals with
           in_scope := s.locals.in_scope.set ident_id true
           regions := s.locals.regions.set ident_id region } })
    else
      let p := s.locals.introduceIntoScope ident region
      (⟨s.home, p.1⟩, { s with locals := p.2 })
  | none =>
    let p := s.locals.introduceIntoScope ident region
    (⟨s.home, p.1⟩, { s with locals := p.2 })

/-- Scope::scopeless_symbol. -/
def Scope.scopelessSymbol (s : Scope) (ident : String) (region : Region) : Symbol × Scope :=
  let p := s.locals.scopelessSymbol ident region
  (p.1, { s with locals := p.2 })

/-- Scope::introduce_without_shadow_symbol. -/
def Scope.introduceWithoutShadowSymbol (s : Scope) (ident : String) (region : Region) :
    Except (Region × Loc String) Symbol × Scope :=
  match s.scopeContains ident with
  | some (_, originalRegion) => (.error (originalRegion, ⟨region, ident⟩), s)
  | none =>
    let p := s.commitIntroduction ident region
    (.ok p.1, p.2)

/-- Scope::introduce: on a shadow, a fresh scopeless Symbol is allocated and
carried by the error. -/
def Scope.introduce (s : Scope) (ident : String) (region : Region) :
    Except (Region × Loc String × Symbol) Symbol × Scope :=
  match s.introduceWithoutShadowSymbol ident region with
  | (.ok sym, s1) => (.ok sym, s1)
  | (.error (originalRegion, shadow), s1) =>
    let p := s1.scopelessSymbol ident region
    (.error (originalRegion, shadow, p.1), p.2)

/-- Scope::introduce_or_shadow_ability_member. -/
def Scope.introduceOrShadowAbilityMember (s : Scope) (ident : String) (region : Region) :
    Except (Region × Loc String × Symbol) (Symbol × Option Symbol) × Scope :=
  match s.scopeContains ident with
  | some (originalSymbol, originalRegion) =>
    let p := s.scopelessSymbol ident region
    if p.2.abilities_store.isAbilityMemberName originalSymbol then
      (.ok (p.1, some originalSymbol),
       { p.2 with abilities_store :=
           p.2.abilities_store.registerSpecializingSymbol p.1 originalSymbol })
    else
      (.error (originalRegion, ⟨region, ident⟩, p.1), p.2)
  | none =>
    let p := s.commitIntroduction ident region
    (.ok (p.1, none), p.2)

/-- Scope::import. -/
def Scope.importIdent (s : Scope) (ident : String) (symbol : Symbol) (region : Region) :
    Except (Symbol × Region) Unit × Scope :=
  match lookupImport s.imports ident with
  | some found => (.error found, s)
  | none => (.ok (), { s with imports := s.imports ++ [(ident, symbol, region)] })

/-- The unbound ("hidden") type variables create_alias debug-asserts about:
the body's free variables with every declared type variable removed. -/
def createAliasHidden (vars : List (Loc (String × Nat))) (typ : RType) : List Nat :=
  typ.typeVariables.filter (fun v => !(vars.any (fun lv => decide (lv.value.2 = v))))

/-- create_alias without its assertion: build the Alias record. -/
def createAlias (name : Symbol) (region : Region) (vars : List (Loc (String × Nat)))
    (typ : RType) (kind : AliasKind) : Alias :=
  { region := region
    type_variables := vars
    lambda_set_variables := []
    recursion_variables := []
    typ := typ
    kind := kind }

/-- create_alias under the development-build assertion: none models the
unrecoverable assertion failure when the body has unbound type variables. -/
def createAliasChecked (name : Symbol) (region : Region) (vars : List (Loc (String × Nat)))
    (typ : RType) (kind : AliasKind) : Option Alias :=
  if createAliasHidden vars typ = [] then some (createAlias name region vars typ kind) else none

/-- Scope::add_alias (in a development build): none when the assertion in
create_alias fails. -/
def Scope.addAlias (s : Scope) (name : Symbol) (region : Region)
    (vars : List (Loc (String × Nat))) (typ : RType) (kind : AliasKind) : Option Scope :=
  match createAliasChecked name region vars typ kind with
  | some a => some { s with aliases := vecMapInsert s.aliases name a }
  | none => none

/-- Scope::lookup_alias. -/
def Scope.lookupAlias (s : Scope) (symbol : Symbol) : Option Alias :=
  vecMapGet s.aliases symbol

/-- The opaques_in_scope list of Scope::opaque_not_defined_error: every
locally declared name (entries with a textual name) whose registered alias
has Opaque kind. -/
def Scope.localOpaqueNames (s : Scope) : List String :=
  (List.range s.locals.ident_ids.length).filterMap (fun i =>
    match s.locals.ident_ids.getD i none with
    | some str =>
      if str = "" then none
      else
        match vecMapGet s.aliases ⟨s.home, i⟩ with
        | some a => if a.kind = AliasKind.Opaque then some str else none
        | none => none
    | none => none)

/-- Scope::opaque_not_defined_error: the "not defined" error, listing the
locally declared opaque names. -/
def Scope.undefinedOpaqueError (s : Scope) (oname : String) (lookupRegion : Region)
    (optDefinedAlias : Option Region) : RuntimeError :=
  .OpaqueNotDefined ⟨lookupRegion, oname⟩ s.localOpaqueNames optDefinedAlias

/-- The body of Scope::lookup_opaque_ref once the sigil has been stripped:
resolve the bare name against visible locals, require an Opaque alias, and
otherwise report one of the three failure shapes. -/
def Scope.lookupOpaqueCore (s : Scope) (oname : String) (lookupRegion : Region) :
    Except RuntimeError (Symbol × Alias) :=
  match s.locals.hasInScope oname with
  | some (symbol, _) =>
    match vecMapGet s.aliases symbol with
    | none => .error (s.undefinedOpaqueError oname lookupRegion none)
    | some a =>
      match a.kind with
      | .Structural => .error (s.undefinedOpaqueError oname lookupRegion (some a.headerRegion))
      | .Opaque => .ok (symbol, a)
  | none =>
    match lookupImport s.imports oname with
    | some (_, declRegion) => .error (.OpaqueOutsideScope oname lookupRegion declRegion)
    | none => .error (s.undefinedOpaqueError oname lookupRegion none)

/-- Scope::lookup_opaque_ref in a development build: none models the
debug-assertion failure when the reference does not start with the sigil;
otherwise the leading character is stripped and the bare name resolved. -/
def Scope.lookupOpaqueRef (s : Scope) (oref : String) (lookupRegion : Region) :
    Option (Except RuntimeError (Symbol × Alias)) :=
  match oref.data with
  | '@' :: rest => some (s.lookupOpaqueCore (String.mk rest) lookupRegion)
  | _ => none

/-- Scope::gen_unique_symbol. -/
def Scope.genUniqueSymbol (s : Scope) : Symbol × Scope :=
  let p := s.locals.genUnique
  (⟨s.home, p.1⟩, { s with locals := p.2 })

/-- One call of a usage trace: introduce, import, scopeless-symbol or unique
generation, sequenced calls, or a bracketed Scope::inner_scope around a
sub-trace. -/
inductive Op where
  | introduceOp : String → Region → Op
  | importOp : String → Symbol → Region → Op
  | scopelessOp : String → Region → Op
  | genUniqueOp : Op
  | skipOp : Op
  | seqOp : Op → Op → Op
  | innerOp : Op → Op

/-- Run a trace against the scope; the second component lists the Symbols the
calls returned (for introduce, the committed Symbol, or the shadow Symbol
carried by the error). An innerOp snapshots, runs its body, truncates the
aliases and reverts the locals, exactly as Scope::inner_scope does. -/
def runOp : Scope → Op → Scope × List Symbol
  | s, .introduceOp n r =>
    match s.introduce n r with
    | (.ok sym, s1) => (s1, [sym])
    | (.error (_, _, sym), s1) => (s1, [sym])
  | s, .importOp n y r => ((s.importIdent n y r).2, [])
  | s, .scopelessOp n r =>
    let p := s.scopelessSymbol n r
    (p.2, [p.1])
  | s, .genUniqueOp =>
    let p := s.genUniqueSymbol
    (p.2, [p.1])
  | s, .skipOp => (s, [])
  | s, .seqOp a b =>
    let p := runOp s a
    let q := runOp p.1 b
    (q.1, p.2 ++ q.2)
  | s, .innerOp body =>
    let aliasesCount := s.aliases.length
    let snap := s.locals.snapshot
    let p := runOp s body
    ({ p.1 with aliases := p.1.aliases.take aliasesCount, locals := p.1.locals.revert snap },
     p.2)

/-- The identifier-table length of a scope. -/
def Scope.lenS (s : Scope) : Nat := s.locals.ident_ids.length

/-- The visibility flag of one identifier-table entry. -/
def Scope.visAt (s : Scope) (i : Nat) : Bool := s.locals.in_scope.getD i false

/-- Well-formedness: the parallel arrays are in lock-step, the exposed prefix
fits in the table, and the locals record the owning module. -/
def wf (s : Scope) : Prop :=
  s.locals.in_scope.length = s.lenS ∧ s.locals.regions.length = s.lenS ∧
    s.exposed_ident_count ≤ s.lenS ∧ s.locals.home = s.home

/-- A symbol the scope can still mint: a home symbol whose index is past the
table, or an exposed index that is not yet visible. -/
def FreshSym (s : Scope) (y : Symbol) : Prop :=
  y.module = s.home ∧
    (s.lenS ≤ y.identId ∨ (y.identId < s.exposed_ident_count ∧ s.visAt y.identId = false))

/-- What one run step guarantees: well-formedness, preserved module and
exposed count, distinct returned symbols all fresh for the starting state,
every still-mintable symbol already mintable before and not among those
returned, and an append-only identifier table. -/
def StepOk (s t : Scope) (syms : List Symbol) : Prop :=
  wf t ∧ t.home = s.home ∧ t.exposed_ident_count = s.exposed_ident_count ∧
  syms.Nodup ∧ (∀ y ∈ syms, FreshSym s y) ∧
  (∀ y, FreshSym t y → FreshSym s y ∧ y ∉ syms) ∧
  (∃ ext, t.locals.ident_ids = s.locals.ident_ids ++ ext)

theorem getD_append_left {α : Type _} (l t : List α) (i : Nat) (d : α) (h : i < l.length) :
    (l ++ t).getD i d = l.getD i d := by
  simp [List.getD_eq_getElem?_getD, List.getElem?_append, h]

theorem getD_append_len {α : Type _} (l : List α) (a d : α) :
    (l ++ [a]).getD l.length d = a := by
  simp [List.getD_eq_getElem?_getD, List.getElem?_concat_length]

theorem getD_set_self {α : Type _} (l : List α) (i : Nat) (a d : α) (h : i < l.length) :
    (l.set i a).getD i d = a := by
  simp [List.getD_eq_getElem?_getD, List.getElem?_set_self, h]

theorem getD_set_ne {α : Type _} (l : List α) (i j : Nat) (a d : α) (h : i ≠ j) :
    (l.set i a).getD j d = l.getD j d := by
  simp [List.getD_eq_getElem?_getD, List.getElem?_set_ne, h]

theorem length_revertFlags (l : List Bool) (n : Nat) : (revertFlags l n).length = l.length := by
  induction l generalizing n with
  | nil => simp [revertFlags]
  | cons b rest ih =>
    cases n with
    | zero => simp [revertFlags, ih]
    | succ m => simp [revertFlags, ih]

theorem getD_revertFlags_lt (l : List Bool) (n i : Nat) (d : Bool) (h : i < n) :
    (revertFlags l n).getD i d = l.getD i d := by
  induction l generalizing n i with
  | nil => simp [revertFlags]
  | cons b rest ih =>
    cases n with
    | zero => omega
    | succ m =>
      cases i with
      | zero => simp [revertFlags]
      | succ j =>
        simp only [revertFlags, List.getD_cons_succ]
        exact ih m j (by omega)

theorem findSome?_first {α β : Type _} {f : α → Option β} {l : List α} {a : α} {b : β}
    (hm : a ∈ l) (hf : f a = some b) (hall : ∀ x ∈ l, x ≠ a → f x = none) :
    l.findSome? f = some b := by
  induction l with
  | nil => simp at hm
  | cons x xs ih =>
    rw [List.findSome?_cons]
    by_cases hxa : x = a
    · subst hxa
      rw [hf]
    · have hx : f x = none := hall x (List.mem_cons_self x xs) hxa
      rw [hx]
      have hmx : a ∈ xs := by
        rcases List.mem_cons.1 hm with h1 | h1
        · exact absurd h1.symm hxa
        · exact h1
      exact ih hmx (fun z hz => hall z (List.mem_cons_of_mem x hz))

theorem mem_getIdMany {ids : IdentIds} {name : String} {i : Nat} :
    i ∈ ids.getIdMany name ↔ i < ids.length ∧ ids.getD i none = some name := by
  simp [IdentIds.getIdMany, List.mem_filter, List.mem_range]

theorem getIdMany_append_hit (ids : IdentIds) (name : String) :
    (ids ++ [some name]).getIdMany name = ids.getIdMany name ++ [ids.length] := by
  unfold IdentIds.getIdMany
  have hlen : (ids ++ [some name]).length = ids.length + 1 := by simp
  rw [hlen, List.range_succ, List.filter_append]
  congr 1
  · apply List.filter_congr
    intro i hi
    rw [List.mem_range] at hi
    rw [getD_append_left ids [some name] i none hi]
  · simp [getD_append_len]

theorem visAt_false_of_hasInScope_none {s : Scope} {n : String}
    (h : s.locals.hasInScope n = none) {i : Nat}
    (hm : i ∈ s.locals.ident_ids.getIdMany n) : s.visAt i = false := by
  have hx := (List.findSome?_eq_none_iff).1 h i hm
  rw [Scope.visAt]
  cases hgb : s.locals.in_scope.getD i false with
  | false => rfl
  | true =>
    rw [hgb] at hx
    simp at hx

/-- StepOk is reflexive on well-formed scopes. -/
theorem stepOk_refl (s : Scope) (h : wf s) : StepOk s s [] := by
  refine ⟨h, rfl, rfl, List.nodup_nil, ?_, ?_, ⟨[], by simp⟩⟩
  · intro y hy; simp at hy
  · intro y hy; exact ⟨hy, by simp⟩

/-- StepOk composes, concatenating the returned symbols. -/
theorem stepOk_comp {s t u : Scope} {a b : List Symbol}
    (h1 : StepOk s t a) (h2 : StepOk t u b) : StepOk s u (a ++ b) := by
  obtain ⟨w1, hh1, he1, nd1, fr1, pre1, e1, hx1⟩ := h1
  obtain ⟨w2, hh2, he2, nd2, fr2, pre2, e2, hx2⟩ := h2
  refine ⟨w2, hh2.trans hh1, he2.trans he1, ?_, ?_, ?_, ⟨e1 ++ e2, by rw [hx2, hx1, List.append_assoc]⟩⟩
  · refine List.Nodup.append nd1 nd2 ?_
    intro y hya hyb
    exact (pre1 y (fr2 y hyb)).2 hya
  · intro y hy
    rcases List.mem_append.1 hy with h1 | h1
    · exact fr1 y h1
    · exact (pre1 y (fr2 y h1)).1
  · intro y hy
    obtain ⟨fy2, hnb⟩ := pre2 y hy
    obtain ⟨fy1, hna⟩ := pre1 y fy2
    exact ⟨fy1, by simp [List.mem_append, hna, hnb]⟩

/-- Appending one entry to the three parallel arrays is a well-behaved step
that returns exactly the minted symbol. -/
theorem append_entry_step (s : Scope) (e : Option String) (b : Bool) (r : Region)
    (m : ModuleId) (h : wf s) (hm : m = s.home) :
    StepOk s
      { s with locals := { s.locals with
          ident_ids := s.locals.ident_ids ++ [e]
          in_scope := s.locals.in_scope ++ [b]
          regions := s.locals.regions ++ [r] } }
      [⟨m, s.lenS⟩] := by
  subst hm
  obtain ⟨hsc, hrg, hex, hhm⟩ := h
  simp only [Scope.lenS] at hsc hrg hex
  unfold StepOk wf FreshSym Scope.lenS Scope.visAt
  dsimp only
  refine ⟨⟨?_, ?_, ?_, hhm⟩, rfl, rfl, List.nodup_singleton _, ?_, ?_, ⟨[e], rfl⟩⟩
  · simp [hsc]
  · simp [hrg]
  · calc s.exposed_ident_count ≤ s.locals.ident_ids.length := hex
      _ ≤ (s.locals.ident_ids ++ [e]).length := by simp
  · intro y hy
    rw [List.mem_singleton] at hy
    subst hy
    exact ⟨rfl, Or.inl (le_refl _)⟩
  · intro y hy
    obtain ⟨hm, hd⟩ := hy
    rcases hd with hl | ⟨hlt, hvis⟩
    · rw [List.length_append, List.length_singleton] at hl
      refine ⟨⟨hm, Or.inl (by omega)⟩, ?_⟩
      intro hc
      rw [List.mem_singleton] at hc
      subst hc
      dsimp only at hl
      omega
    · have hlt2 : y.identId < s.locals.ident_ids.length := lt_of_lt_of_le hlt hex
      rw [getD_append_left s.locals.in_scope [b] y.identId false
        (by rw [hsc]; exact hlt2)] at hvis
      refine ⟨⟨hm, Or.inr ⟨hlt, hvis⟩⟩, ?_⟩
      intro hc
      rw [List.mem_singleton] at hc
      subst hc
      have hcontr : s.locals.ident_ids.length < s.locals.ident_ids.length := hlt2
      exact absurd hcontr (lt_irrefl _)

/-- Re-activating a not-yet-visible exposed entry is a well-behaved step that
returns exactly the exposed symbol. -/
theorem set_exposed_step (s : Scope) (i : Nat) (r : Region) (h : wf s)
    (hi : i < s.exposed_ident_count) (hv : s.visAt i = false) :
    StepOk s
      { s with locals := { s.locals with
          in_scope := s.locals.in_scope.set i true
          regions := s.locals.regions.set i r } }
      [⟨s.home, i⟩] := by
  obtain ⟨hsc, hrg, hex, hhm⟩ := h
  simp only [Scope.lenS] at hsc hrg hex
  simp only [Scope.visAt] at hv
  have hilen : i < s.locals.ident_ids.length := lt_of_lt_of_le hi hex
  unfold StepOk wf FreshSym Scope.lenS Scope.visAt
  dsimp only
  refine ⟨⟨?_, ?_, hex, hhm⟩, rfl, rfl, List.nodup_singleton _, ?_, ?_, ⟨[], by simp⟩⟩
  · simp [hsc]
  · simp [hrg]
  · intro y hy
    rw [List.mem_singleton] at hy
    subst hy
    exact ⟨rfl, Or.inr ⟨hi, hv⟩⟩
  · intro y hy
    obtain ⟨hm, hd⟩ := hy
    rcases hd with hl | ⟨hlt, hvis⟩
    · refine ⟨⟨hm, Or.inl hl⟩, ?_⟩
      intro hc
      rw [List.mem_singleton] at hc
      subst hc
      dsimp only at hl
      omega
    · have hne : y.identId ≠ i := by
        intro hc
        rw [hc, getD_set_self _ _ _ _ (by rw [hsc]; exact hilen)] at hvis
        simp at hvis
      rw [getD_set_ne _ _ _ _ _ (fun hc => hne hc.symm)] at hvis
      refine ⟨⟨hm, Or.inr ⟨hlt, hvis⟩⟩, ?_⟩
      intro hc
      rw [List.mem_singleton] at hc
      subst hc
      exact hne rfl

/-- A step that leaves the locals, home and exposed count unchanged returns
nothing new. -/
theorem locals_eq_step (s t : Scope) (h : wf s) (hl : t.locals = s.locals)
    (hh : t.home = s.home) (he : t.exposed_ident_count = s.exposed_ident_count) :
    StepOk s t [] := by
  obtain ⟨hsc, hrg, hex, hhm⟩ := h
  unfold StepOk wf FreshSym Scope.lenS Scope.visAt
  rw [hl, hh, he]
  refine ⟨⟨hsc, hrg, hex, hhm⟩, rfl, rfl, List.nodup_nil, ?_, ?_, ⟨[], by simp⟩⟩
  · intro y hy; simp at hy
  · intro y hy; exact ⟨hy, by simp⟩

/-- Reverting to a snapshot at or past the exposed prefix is a well-behaved
step. -/
theorem revert_step (s : Scope) (snap ac : Nat) (h : wf s)
    (hsnap : s.exposed_ident_count ≤ snap) :
    StepOk s { s with aliases := s.aliases.take ac, locals := s.locals.revert snap } [] := by
  obtain ⟨hsc, hrg, hex, hhm⟩ := h
  simp only [Scope.lenS] at hsc hrg hex
  unfold StepOk wf FreshSym Scope.lenS Scope.visAt ScopedIdentIds.revert
  dsimp only
  refine ⟨⟨?_, hrg, hex, hhm⟩, rfl, rfl, List.nodup_nil, ?_, ?_, ⟨[], by simp⟩⟩
  · rw [length_revertFlags]; exact hsc
  · intro y hy; simp at hy
  · intro y hy
    obtain ⟨hm, hd⟩ := hy
    refine ⟨⟨hm, ?_⟩, by simp⟩
    rcases hd with hd | ⟨h1, h2⟩
    · exact Or.inl hd
    · rw [getD_revertFlags_lt _ _ _ _ (lt_of_lt_of_le h1 hsnap)] at h2
      exact Or.inr ⟨h1, h2⟩

/-- Committing an introduction when the name has no visible entry is a
well-behaved step returning exactly the committed symbol. -/
theorem commit_step (s : Scope) (n : String) (r : Region) (h : wf s)
    (hloc : s.locals.hasInScope n = none) :
    StepOk s (s.commitIntroduction n r).2 [(s.commitIntroduction n r).1] := by
  unfold Scope.commitIntroduction
  rcases hg : s.locals.ident_ids.getId n with _ | i
  · dsimp only
    exact append_entry_step s (some n) true r s.home h rfl
  · dsimp only
    by_cases hi : i < s.exposed_ident_count
    · rw [if_pos hi]
      have hmem : i ∈ s.locals.ident_ids.getIdMany n := by
        apply List.mem_of_mem_head?
        rw [IdentIds.getId] at hg
        exact (Option.mem_def).2 hg
      have hv : s.visAt i = false := visAt_false_of_hasInScope_none hloc hmem
      exact set_exposed_step s i r h hi hv
    · rw [if_neg hi]
      exact append_entry_step s (some n) true r s.home h rfl

/-- Scope::introduce on a name the scope does not contain commits the
introduction. -/
theorem introduce_eq_of_contains_none (s : Scope) (n : String) (r : Region)
    (hc : s.scopeContains n = none) :
    s.introduce n r = (.ok (s.commitIntroduction n r).1, (s.commitIntroduction n r).2) := by
  simp only [Scope.introduce, Scope.introduceWithoutShadowSymbol, hc]

/-- Scope::introduce on a name the scope contains returns the illegal-shadow
error, carrying the original region and a fresh scopeless symbol. -/
theorem introduce_eq_of_contains_some (s : Scope) (n : String) (r : Region)
    (os : Symbol) (orr : Region) (hc : s.scopeContains n = some (os, orr)) :
    s.introduce n r =
      (.error (orr, ⟨r, n⟩, (s.scopelessSymbol n r).1), (s.scopelessSymbol n r).2) := by
  simp only [Scope.introduce, Scope.introduceWithoutShadowSymbol, hc]

/-- scope_contains = none gives has_in_scope = none. -/
theorem hasInScope_none_of_contains_none {s : Scope} {n : String}
    (hc : s.scopeContains n = none) : s.locals.hasInScope n = none := by
  unfold Scope.scopeContains at hc
  rcases hh : s.locals.hasInScope n with _ | v
  · rfl
  · rw [hh] at hc
    simp at hc

/-- scope_contains = none gives lookupImport = none. -/
theorem lookupImport_none_of_contains_none {s : Scope} {n : String}
    (hc : s.scopeContains n = none) : lookupImport s.imports n = none := by
  unfold Scope.scopeContains at hc
  rcases hh : s.locals.hasInScope n with _ | v
  · rw [hh] at hc
    exact hc
  · rw [hh] at hc
    simp at hc

/-- A new scope is well-formed. -/
theorem wf_new (home : ModuleId) (ids : IdentIds) : wf (Scope.new home ids) := by
  unfold wf Scope.new ScopedIdentIds.fromIdentIds Scope.lenS
  dsimp only
  refine ⟨?_, ?_, le_refl _, rfl⟩ <;> simp

/-- Every run step from a well-formed scope is well-behaved. -/
theorem runOp_step (op : Op) : ∀ s : Scope, wf s → StepOk s (runOp s op).1 (runOp s op).2 := by
  induction op with
  | introduceOp n r =>
    intro s h
    rcases hc : s.scopeContains n with _ | ⟨os, orr⟩
    · simp only [runOp, introduce_eq_of_contains_none s n r hc]
      exact commit_step s n r h (hasInScope_none_of_contains_none hc)
    · simp only [runOp, introduce_eq_of_contains_some s n r os orr hc]
      simp only [Scope.scopelessSymbol, ScopedIdentIds.scopelessSymbol]
      exact append_entry_step s (some n) false r s.locals.home h h.2.2.2
  | importOp n y r =>
    intro s h
    simp only [runOp, Scope.importIdent]
    rcases hI : lookupImport s.imports n with _ | v
    · exact locals_eq_step s _ h rfl rfl rfl
    · exact stepOk_refl s h
  | scopelessOp n r =>
    intro s h
    simp only [runOp, Scope.scopelessSymbol, ScopedIdentIds.scopelessSymbol]
    exact append_entry_step s (some n) false r s.locals.home h h.2.2.2
  | genUniqueOp =>
    intro s h
    simp only [runOp, Scope.genUniqueSymbol, ScopedIdentIds.genUnique]
    exact append_entry_step s none false 0 s.home h rfl
  | skipOp =>
    intro s h
    exact stepOk_refl s h
  | seqOp a b iha ihb =>
    intro s h
    have h1 := iha s h
    have h2 := ihb (runOp s a).1 h1.1
    have h3 := stepOk_comp h1 h2
    simpa only [runOp] using h3
  | innerOp body ih =>
    intro s h
    have h1 := ih s h
    have hsnap : (runOp s body).1.exposed_ident_count ≤ s.locals.snapshot := by
      rw [h1.2.2.1]
      exact h.2.2.1
    have h2 := revert_step (runOp s body).1 s.locals.snapshot s.aliases.length h1.1 hsnap
    have h3 := stepOk_comp h1 h2
    simpa only [runOp, List.append_nil] using h3

/-- commit_introduction never touches the import table. -/
theorem commit_imports (s : Scope) (n : String) (r : Region) :
    (s.commitIntroduction n r).2.imports = s.imports := by
  unfold Scope.commitIntroduction
  rcases hg : s.locals.ident_ids.getId n with _ | i
  · rfl
  · dsimp only
    by_cases hi : i < s.exposed_ident_count
    · rw [if_pos hi]
    · rw [if_neg hi]

/-- What a successful introduce leaves behind: a well-formed scope with the
same module, exposed count and imports, in which the returned symbol is the
one visible entry for the name, carrying the introduction's region, while
every other entry for the name stays invisible. -/
theorem introduce_ok_state (s s1 : Scope) (n : String) (A : Region) (S1 : Symbol)
    (h : wf s) (h1 : s.introduce n A = (.ok S1, s1)) :
    wf s1 ∧ s1.home = s.home ∧ s1.locals.home = s.home ∧
    s1.exposed_ident_count = s.exposed_ident_count ∧
    s1.imports = s.imports ∧
    (S1.module = s.home ∧ S1.identId < s1.lenS ∧
     S1.identId ∈ s1.locals.ident_ids.getIdMany n ∧
     s1.visAt S1.identId = true ∧ s1.locals.regions.getD S1.identId 0 = A ∧
     (∀ x ∈ s1.locals.ident_ids.getIdMany n, x ≠ S1.identId → s1.visAt x = false)) := by
  rcases hc : s.scopeContains n with _ | ⟨os, orr⟩
  case _ =>
    have hloc := hasInScope_none_of_contains_none hc
    rw [introduce_eq_of_contains_none s n A hc, Prod.mk.injEq] at h1
    obtain ⟨hA, hB⟩ := h1
    rw [Except.ok.injEq] at hA
    subst hB
    subst hA
    have hstep := commit_step s n A h hloc
    refine ⟨hstep.1, hstep.2.1, (hstep.1.2.2.2).trans hstep.2.1, hstep.2.2.1,
      commit_imports s n A, ?_⟩
    obtain ⟨hsc, hrg, hex, hhm⟩ := h
    simp only [Scope.lenS] at hsc hrg hex
    unfold Scope.commitIntroduction
    rcases hg : s.locals.ident_ids.getId n with _ | i
    · simp only [ScopedIdentIds.introduceIntoScope]
      refine ⟨trivial, by simp [Scope.lenS], ?_, ?_, ?_, ?_⟩
      · rw [getIdMany_append_hit]
        exact List.mem_append_right _ (List.mem_singleton.mpr rfl)
      · show (s.locals.in_scope ++ [true]).getD s.locals.ident_ids.length false = true
        rw [← hsc]
        exact getD_append_len _ _ _
      · show (s.locals.regions ++ [A]).getD s.locals.ident_ids.length 0 = A
        rw [← hrg]
        exact getD_append_len _ _ _
      · intro x hx hne
        rw [getIdMany_append_hit] at hx
        rcases List.mem_append.1 hx with hx1 | hx1
        · have hxl : x < s.locals.ident_ids.length := (mem_getIdMany.1 hx1).1
          show (s.locals.in_scope ++ [true]).getD x false = false
          rw [getD_append_left _ _ _ _ (by rw [hsc]; exact hxl)]
          exact visAt_false_of_hasInScope_none hloc hx1
        · exact absurd (List.mem_singleton.1 hx1) hne
    · dsimp only
      have hmem : i ∈ s.locals.ident_ids.getIdMany n := by
        apply List.mem_of_mem_head?
        rw [IdentIds.getId] at hg
        exact (Option.mem_def).2 hg
      have hiL : i < s.locals.ident_ids.length := (mem_getIdMany.1 hmem).1
      by_cases hi : i < s.exposed_ident_count
      · rw [if_pos hi]
        refine ⟨rfl, hiL, hmem, ?_, ?_, ?_⟩
        · show (s.locals.in_scope.set i true).getD i false = true
          exact getD_set_self _ _ _ _ (by rw [hsc]; exact hiL)
        · show (s.locals.regions.set i A).getD i 0 = A
          exact getD_set_self _ _ _ _ (by rw [hrg]; exact hiL)
        · intro x hx hne
          show (s.locals.in_scope.set i true).getD x false = false
          rw [getD_set_ne _ _ _ _ _ (fun hcc => hne hcc.symm)]
          exact visAt_false_of_hasInScope_none hloc hx
      · rw [if_neg hi]
        simp only [ScopedIdentIds.introduceIntoScope]
        refine ⟨trivial, by simp [Scope.lenS], ?_, ?_, ?_, ?_⟩
        · rw [getIdMany_append_hit]
          exact List.mem_append_right _ (List.mem_singleton.mpr rfl)
        · show (s.locals.in_scope ++ [true]).getD s.locals.ident_ids.length false = true
          rw [← hsc]
          exact getD_append_len _ _ _
        · show (s.locals.regions ++ [A]).getD s.locals.ident_ids.length 0 = A
          rw [← hrg]
          exact getD_append_len _ _ _
        · intro x hx hne
          rw [getIdMany_append_hit] at hx
          rcases List.mem_append.1 hx with hx1 | hx1
          · have hxl : x < s.locals.ident_ids.length := (mem_getIdMany.1 hx1).1
            show (s.locals.in_scope ++ [true]).getD x false = false
            rw [getD_append_left _ _ _ _ (by rw [hsc]; exact hxl)]
            exact visAt_false_of_hasInScope_none hloc hx1
          · exact absurd (List.mem_singleton.1 hx1) hne
  case _ =>
    rw [introduce_eq_of_contains_some s n A os orr hc, Prod.mk.injEq] at h1
    obtain ⟨hA, hB⟩ := h1
    simp at hA

/-- A scope in which a symbol is the one visible entry for a name resolves
that name to the symbol, with the recorded region. -/
theorem hasInScope_resolves (t : ScopedIdentIds) (n : String) (A : Region) (S1 : Symbol)
    (hhome : t.home = S1.module)
    (hmem : S1.identId ∈ t.ident_ids.getIdMany n)
    (hvis : t.in_scope.getD S1.identId false = true)
    (hreg : t.regions.getD S1.identId 0 = A)
    (hothers : ∀ x ∈ t.ident_ids.getIdMany n, x ≠ S1.identId →
      t.in_scope.getD x false = false) :
    t.hasInScope n = some (S1, A) := by
  unfold ScopedIdentIds.hasInScope
  apply findSome?_first hmem
  · rw [hvis, if_pos rfl, hreg, hhome]
  · intro x hx hne
    rw [hothers x hx hne]
    simp

/-- C1: for every trace of introduce, import, scopeless-symbol and
unique-generation calls on one Scope, inner_scope rollbacks included, the
Symbols returned across the whole trace are pairwise distinct. -/
theorem returned_symbols_all_distinct (home : ModuleId) (ids : IdentIds) (ops : Op) :
    ((runOp (Scope.new home ids) ops).2).Nodup :=
  (runOp_step ops (Scope.new home ids) (wf_new home ids)).2.2.2.1

/-- C2, evaluated at the failing input: with one pre-seeded exposed identifier
"x", initially not resolvable (lookup fails, its visibility flag is off),
running inner_scope with a body that introduces "x" leaves "x" resolvable
after the rollback: the pre-entry visibility is not restored, although the
identifier table itself is unchanged. -/
theorem inner_scope_exposed_visibility_leak :
    ((Scope.new 0 [some "x"]).lookup "x" 0).isOk = false ∧
    (Scope.new 0 [some "x"]).visAt 0 = false ∧
    (runOp (Scope.new 0 [some "x"]) (.innerOp (.introduceOp "x" 5))).1.visAt 0 = true ∧
    (runOp (Scope.new 0 [some "x"]) (.innerOp (.introduceOp "x" 5))).1.lookup "x" 0 =
      .ok ⟨0, 0⟩ ∧
    (runOp (Scope.new 0 [some "x"]) (.innerOp (.introduceOp "x" 5))).1.locals.ident_ids =
      [some "x"] := by
  decide

/-- C3: introducing a name at region A and then again at region B yields two
distinct Symbols: the second call errors, reporting region A as the original
region together with a freshly allocated scopeless Symbol, and a subsequent
lookup of the name still resolves to the first Symbol. -/
theorem introduce_shadow_keeps_original (s s1 : Scope) (n : String) (A B C : Region)
    (S1 : Symbol) (hwf : wf s) (h1 : s.introduce n A = (.ok S1, s1)) :
    (s1.introduce n B).1 = .error (A, ⟨B, n⟩, ⟨s.home, s1.lenS⟩) ∧
    (⟨s.home, s1.lenS⟩ : Symbol) ≠ S1 ∧
    (s1.introduce n B).2.lookup n C = .ok S1 := by
  obtain ⟨hw1, hh, hlh, hex, himp, hmod, hlt, hmem, hvis, hreg, hothers⟩ :=
    introduce_ok_state s s1 n A S1 hwf h1
  obtain ⟨hsc1, hrg1, hex1, hhm1⟩ := hw1
  simp only [Scope.lenS] at hsc1 hrg1 hex1 hlt
  have hvg : s1.locals.in_scope.getD S1.identId false = true := hvis
  have hrg2 : s1.locals.regions.getD S1.identId 0 = A := hreg
  have hothers2 : ∀ x ∈ s1.locals.ident_ids.getIdMany n, x ≠ S1.identId →
      s1.locals.in_scope.getD x false = false := hothers
  have hres : s1.locals.hasInScope n = some (S1, A) :=
    hasInScope_resolves s1.locals n A S1 (hlh.trans hmod.symm) hmem hvg hrg2 hothers2
  have hcont : s1.scopeContains n = some (S1, A) := by
    unfold Scope.scopeContains
    rw [hres]
  have hintro := introduce_eq_of_contains_some s1 n B S1 A hcont
  refine ⟨?_, ?_, ?_⟩
  · rw [hintro]
    simp only [Scope.scopelessSymbol, ScopedIdentIds.scopelessSymbol]
    rw [hlh]
    rfl
  · intro hcEq
    have hid2 : List.length s1.locals.ident_ids = S1.identId :=
      congrArg Symbol.identId hcEq
    rw [hid2] at hlt
    exact lt_irrefl _ hlt
  · rw [hintro]
    simp only [Scope.scopelessSymbol, ScopedIdentIds.scopelessSymbol]
    unfold Scope.lookup Scope.scopeContains
    have hres2 : ({ s1 with locals := { s1.locals with
        ident_ids := s1.locals.ident_ids ++ [some n]
        in_scope := s1.locals.in_scope ++ [false]
        regions := s1.locals.regions ++ [B] } } : Scope).locals.hasInScope n =
        some (S1, A) := by
      apply hasInScope_resolves
      · exact hlh.trans hmod.symm
      · show S1.identId ∈ (s1.locals.ident_ids ++ [some n]).getIdMany n
        rw [getIdMany_append_hit]
        exact List.mem_append_left _ hmem
      · show (s1.locals.in_scope ++ [false]).getD S1.identId false = true
        rw [getD_append_left _ _ _ _ (by rw [hsc1]; exact hlt)]
        exact hvg
      · show (s1.locals.regions ++ [B]).getD S1.identId 0 = A
        rw [getD_append_left _ _ _ _ (by rw [hrg1]; exact hlt)]
        exact hrg2
      · intro x hx hne
        show (s1.locals.in_scope ++ [false]).getD x false = false
        rw [show ((s1.locals.ident_ids ++ [some n]).getIdMany n : List IdentId) =
          s1.locals.ident_ids.getIdMany n ++ [s1.locals.ident_ids.length]
          from getIdMany_append_hit _ _] at hx
        rcases List.mem_append.1 hx with hx1 | hx1
        · have hxl : x < s1.locals.ident_ids.length := (mem_getIdMany.1 hx1).1
          rw [getD_append_left _ _ _ _ (by rw [hsc1]; exact hxl)]
          exact hothers2 x hx1 hne
        · rw [List.mem_singleton.1 hx1, ← hsc1]
          exact getD_append_len _ _ _
    rw [hres2]

/-- C3 at a concrete input: a fresh scope, "a" introduced at region 1 and then
at region 2; the error carries region 1 and a distinct fresh symbol, and the
lookup still yields the first symbol. -/
theorem introduce_shadow_keeps_original_witness :
    ((((Scope.new 0 []).introduce "a" 1).2.introduce "a" 2).1 =
      .error (1, ⟨2, "a"⟩,
        ⟨(Scope.new 0 []).home, ((Scope.new 0 []).introduce "a" 1).2.lenS⟩)) ∧
    ((⟨(Scope.new 0 []).home, ((Scope.new 0 []).introduce "a" 1).2.lenS⟩ : Symbol) ≠
      ⟨0, 0⟩) ∧
    ((((Scope.new 0 []).introduce "a" 1).2.introduce "a" 2).2.lookup "a" 3 = .ok ⟨0, 0⟩) :=
  introduce_shadow_keeps_original (Scope.new 0 []) (((Scope.new 0 []).introduce "a" 1).2)
    "a" 1 2 3 ⟨0, 0⟩ (wf_new 0 []) (by decide)

/-- C4: once canonicalization has run any trace of calls, introducing a name
whose first identifier-table entry is among the pre-seeded exposed ones (index
below the exposed count) returns the Symbol built from that identical
pre-seeded index and allocates nothing, and the pre-seeded prefix of the
identifier table is exactly as it was when the Scope was built. -/
theorem exposed_introduce_reuses_index (home : ModuleId) (ids : IdentIds) (ops : Op)
    (n : String) (r : Region) (i : IdentId) (S : Symbol) (s2 : Scope) (j : Nat)
    (hid : (runOp (Scope.new home ids) ops).1.locals.ident_ids.getId n = some i)
    (hexp : i < (runOp (Scope.new home ids) ops).1.exposed_ident_count)
    (hok : (runOp (Scope.new home ids) ops).1.introduce n r = (.ok S, s2))
    (hj : j < ids.length) :
    S = ⟨home, i⟩ ∧
    s2.locals.ident_ids = (runOp (Scope.new home ids) ops).1.locals.ident_ids ∧
    (runOp (Scope.new home ids) ops).1.locals.ident_ids.getD j none = ids.getD j none := by
  have hstep := runOp_step ops (Scope.new home ids) (wf_new home ids)
  have hhome : (runOp (Scope.new home ids) ops).1.home = home := hstep.2.1
  obtain ⟨ext, hext⟩ := hstep.2.2.2.2.2.2
  have h3 : (runOp (Scope.new home ids) ops).1.locals.ident_ids.getD j none =
      ids.getD j none := by
    rw [hext]
    exact getD_append_left _ _ _ _ hj
  rcases hc : (runOp (Scope.new home ids) ops).1.scopeContains n with _ | ⟨os, orr⟩
  · rw [introduce_eq_of_contains_none _ n r hc, Prod.mk.injEq] at hok
    obtain ⟨hS, hs2⟩ := hok
    rw [Except.ok.injEq] at hS
    unfold Scope.commitIntroduction at hS hs2
    rw [hid] at hS hs2
    dsimp only at hS hs2
    rw [if_pos hexp] at hS hs2
    refine ⟨?_, ?_, h3⟩
    · rw [← hS, hhome]
    · rw [← hs2]
  · rw [introduce_eq_of_contains_some _ n r os orr hc, Prod.mk.injEq] at hok
    obtain ⟨hS, _⟩ := hok
    simp at hS

/-- C4 at a concrete input: a scope whose table pre-seeds the exposed name "x"
at index 0; after an empty trace, introducing "x" returns the symbol with
index 0 and leaves the table unchanged. -/
theorem exposed_introduce_reuses_index_witness :
    ((⟨0, 0⟩ : Symbol) = ⟨0, 0⟩) ∧
    (((runOp (Scope.new 0 [some "x"]) Op.skipOp).1.introduce "x" 3).2.locals.ident_ids =
      (runOp (Scope.new 0 [some "x"]) Op.skipOp).1.locals.ident_ids) ∧
    ((runOp (Scope.new 0 [some "x"]) Op.skipOp).1.locals.ident_ids.getD 0 none =
      [some "x"].getD 0 none) :=
  exposed_introduce_reuses_index 0 [some "x"] Op.skipOp "x" 3 0 ⟨0, 0⟩
    ((runOp (Scope.new 0 [some "x"]) Op.skipOp).1.introduce "x" 3).2 0
    (by decide) (by decide) (by decide) (by decide)

/-- Modelled from the spec: the claim C5 case analysis for an opaque
reference, written from the claim's words: success exactly on a visible
local declaration with an Opaque alias; a local with no alias, or with a
Structural alias (then annotated with that alias's header region), is
"opaque not defined" listing the locally declared opaque names; a name that
only matches an import is "opaque used outside declaring scope" carrying the
reference region and the import's declaration region, checked before the
final "not defined" fallback. -/
def Scope.lookupOpaqueRefSpec (s : Scope) (oname : String) (r : Region) :
    Except RuntimeError (Symbol × Alias) :=
  match s.locals.hasInScope oname with
  | some (symbol, _) =>
    match vecMapGet s.aliases symbol with
    | some a =>
      match a.kind with
      | .Opaque => .ok (symbol, a)
      | .Structural =>
        .error (.OpaqueNotDefined ⟨r, oname⟩ s.localOpaqueNames (some a.headerRegion))
    | none => .error (.OpaqueNotDefined ⟨r, oname⟩ s.localOpaqueNames none)
  | none =>
    match lookupImport s.imports oname with
    | some (_, declRegion) => .error (.OpaqueOutsideScope oname r declRegion)
    | none => .error (.OpaqueNotDefined ⟨r, oname⟩ s.localOpaqueNames none)

/-- C5: lookup_opaque_ref on a sigil-led reference follows exactly the case
analysis of the claim, and the opaque-name list its errors carry holds
precisely the locally declared names with an Opaque alias. -/
theorem lookupOpaqueRef_case_analysis (s : Scope) (n : String) (r : Region) (str : String) :
    s.lookupOpaqueRef (String.mk ('@' :: n.data)) r = some (s.lookupOpaqueRefSpec n r) ∧
    (str ∈ s.localOpaqueNames ↔
      ∃ i, i < s.locals.ident_ids.length ∧ s.locals.ident_ids.getD i none = some str ∧
        str ≠ "" ∧
        ∃ a, vecMapGet s.aliases ⟨s.home, i⟩ = some a ∧ a.kind = AliasKind.Opaque) := by
  constructor
  · show some (s.lookupOpaqueCore (String.mk n.data) r) = some (s.lookupOpaqueRefSpec n r)
    have heta : String.mk n.data = n := rfl
    rw [heta]
    rcases hin : s.locals.hasInScope n with _ | ⟨sym, reg⟩
    · rcases him : lookupImport s.imports n with _ | ⟨y, dr⟩
      · simp [Scope.lookupOpaqueCore, Scope.lookupOpaqueRefSpec,
          Scope.undefinedOpaqueError, hin, him]
      · simp [Scope.lookupOpaqueCore, Scope.lookupOpaqueRefSpec, hin, him]
    · rcases hga : vecMapGet s.aliases sym with _ | a
      · simp [Scope.lookupOpaqueCore, Scope.lookupOpaqueRefSpec,
          Scope.undefinedOpaqueError, hin, hga]
      · cases hk : a.kind
        · simp [Scope.lookupOpaqueCore, Scope.lookupOpaqueRefSpec,
            Scope.undefinedOpaqueError, hin, hga, hk]
        · simp [Scope.lookupOpaqueCore, Scope.lookupOpaqueRefSpec, hin, hga, hk]
  · unfold Scope.localOpaqueNames
    rw [List.mem_filterMap]
    constructor
    · rintro ⟨i, hi, hf⟩
      rw [List.mem_range] at hi
      refine ⟨i, hi, ?_⟩
      rcases hgd : s.locals.ident_ids.getD i none with _ | str2
      · simp only [hgd] at hf
        simp at hf
      · simp only [hgd] at hf
        by_cases hstr : str2 = ""
        · rw [if_pos hstr] at hf
          simp at hf
        · rw [if_neg hstr] at hf
          rcases hga : vecMapGet s.aliases ⟨s.home, i⟩ with _ | a
          · simp only [hga] at hf
            simp at hf
          · simp only [hga] at hf
            by_cases hk : a.kind = AliasKind.Opaque
            · rw [if_pos hk, Option.some.injEq] at hf
              subst hf
              exact ⟨rfl, hstr, a, rfl, hk⟩
            · rw [if_neg hk] at hf
              simp at hf
    · rintro ⟨i, hi, hgd, hstr, a, hga, hk⟩
      refine ⟨i, List.mem_range.mpr hi, ?_⟩
      simp only [hgd]
      rw [if_neg hstr]
      simp only [hga]
      rw [if_pos hk]

/-- Modelled from the spec: the claim C6 behaviour, written from the claim's
words: a collision with a registered ability-member name mints a fresh
scopeless symbol, registers it as a specialization of the original and
succeeds with both; any other collision produces exactly the result plain
introduce produces; no collision behaves exactly like plain introduce with no
specialization. -/
def Scope.introduceOrShadowSpec (s : Scope) (ident : String) (region : Region) :
    Except (Region × Loc String × Symbol) (Symbol × Option Symbol) × Scope :=
  match s.scopeContains ident with
  | some (originalSymbol, _) =>
    if s.abilities_store.isAbilityMemberName originalSymbol then
      let p := s.scopelessSymbol ident region
      (.ok (p.1, some originalSymbol),
       { p.2 with abilities_store :=
           p.2.abilities_store.registerSpecializingSymbol p.1 originalSymbol })
    else
      match s.introduce ident region with
      | (.ok sym, t) => (.ok (sym, none), t)
      | (.error e, t) => (.error e, t)
  | none =>
    match s.introduce ident region with
    | (.ok sym, t) => (.ok (sym, none), t)
    | (.error e, t) => (.error e, t)

/-- C6: introduce_or_shadow_ability_member behaves exactly as the claim's
case analysis: ability-member collisions succeed with a fresh symbol and a
recorded specialization, other collisions fail exactly as introduce does, and
without a collision it is plain introduce with no specialization recorded. -/
theorem introduceOrShadow_case_analysis (s : Scope) (n : String) (r : Region) :
    s.introduceOrShadowAbilityMember n r = s.introduceOrShadowSpec n r := by
  rcases hc : s.scopeContains n with _ | ⟨os, orr⟩
  · simp [Scope.introduceOrShadowAbilityMember, Scope.introduceOrShadowSpec, hc,
      introduce_eq_of_contains_none s n r hc]
  · by_cases hab : s.abilities_store.isAbilityMemberName os = true
    · simp [Scope.introduceOrShadowAbilityMember, Scope.introduceOrShadowSpec, hc, hab,
        Scope.scopelessSymbol, ScopedIdentIds.scopelessSymbol]
    · simp [Scope.introduceOrShadowAbilityMember, Scope.introduceOrShadowSpec, hc, hab,
        introduce_eq_of_contains_some s n r os orr hc,
        Scope.scopelessSymbol, ScopedIdentIds.scopelessSymbol]

/-- lookupImport finds nothing exactly when no entry carries the name. -/
theorem lookupImport_none_iff (l : List (String × Symbol × Region)) (n : String) :
    lookupImport l n = none ↔ ∀ e ∈ l, e.1 ≠ n := by
  induction l with
  | nil => simp [lookupImport]
  | cons e rest ih =>
    rcases e with ⟨en, ey, er⟩
    by_cases he : en = n
    · simp [lookupImport, he]
    · simp [lookupImport, he, ih]

/-- What lookupImport finds is the first entry carrying the name. -/
theorem lookupImport_some_first (l : List (String × Symbol × Region)) (n : String)
    (os : Symbol) (orr : Region) :
    lookupImport l n = some (os, orr) →
    ∃ pre post, l = pre ++ (n, os, orr) :: post ∧ ∀ e ∈ pre, e.1 ≠ n := by
  induction l with
  | nil => intro h; simp [lookupImport] at h
  | cons e rest ih =>
    rcases e with ⟨en, ey, er⟩
    intro h
    by_cases he : en = n
    · rw [lookupImport, if_pos he, Option.some.injEq, Prod.mk.injEq] at h
      refine ⟨[], rest, ?_, by simp⟩
      rw [List.nil_append, he, h.1, h.2]
    · rw [lookupImport, if_neg he] at h
      obtain ⟨pre, post, hl, hpre⟩ := ih h
      refine ⟨(en, ey, er) :: pre, post, by rw [List.cons_append, hl], ?_⟩
      intro e he2
      rcases List.mem_cons.1 he2 with he3 | he3
      · rw [he3]
        exact he
      · exact hpre e he3

/-- A table with the entry appended at the end still resolves the name. -/
theorem lookupImport_append_self (l : List (String × Symbol × Region)) (n : String)
    (y : Symbol) (r : Region) :
    ∃ v, lookupImport (l ++ [(n, y, r)]) n = some v := by
  induction l with
  | nil => exact ⟨(y, r), by simp [lookupImport]⟩
  | cons e rest ih =>
    rcases e with ⟨en, ey, er⟩
    by_cases he : en = n
    · exact ⟨(ey, er), by simp [lookupImport, he]⟩
    · simpa [lookupImport, he] using ih

/-- C7: import fails exactly when the name already appears in the import
table, and then returns the first import's Symbol and Region, leaving the
whole scope untouched; it never consults the locals; on success the entry is
appended to the import table, and a scope whose import table carries the
appended entry resolves the name by lookup. -/
theorem import_first_wins (s : Scope) (n : String) (y : Symbol) (r C : Region)
    (l : ScopedIdentIds) :
    ((s.importIdent n y r).1.isOk = true ↔ ∀ e ∈ s.imports, e.1 ≠ n) ∧
    (∀ os orr, lookupImport s.imports n = some (os, orr) →
      s.importIdent n y r = (.error (os, orr), s) ∧
      ∃ pre post, s.imports = pre ++ (n, os, orr) :: post ∧ ∀ e ∈ pre, e.1 ≠ n) ∧
    ((∀ e ∈ s.imports, e.1 ≠ n) →
      s.importIdent n y r = (.ok (), { s with imports := s.imports ++ [(n, y, r)] })) ∧
    ({ s with locals := l }.importIdent n y r).1 = (s.importIdent n y r).1 ∧
    (({ s with imports := s.imports ++ [(n, y, r)] } : Scope).lookup n C).isOk = true := by
  refine ⟨?_, ?_, ?_, ?_, ?_⟩
  · rw [← lookupImport_none_iff]
    unfold Scope.importIdent
    rcases hI : lookupImport s.imports n with _ | v
    · simp [Except.isOk, Except.toBool]
    · simp [Except.isOk, Except.toBool]
  · intro os orr hI
    refine ⟨?_, lookupImport_some_first s.imports n os orr hI⟩
    unfold Scope.importIdent
    rw [hI]
  · intro hall
    have hI : lookupImport s.imports n = none := (lookupImport_none_iff _ _).2 hall
    unfold Scope.importIdent
    rw [hI]
  · unfold Scope.importIdent
    rcases hI : lookupImport s.imports n with _ | v
    · rfl
    · rfl
  · unfold Scope.lookup Scope.scopeContains
    rcases hin : s.locals.hasInScope n with _ | v
    · obtain ⟨v2, hv2⟩ := lookupImport_append_self s.imports n y r
      rw [hv2]
      rcases v2 with ⟨vs, vr⟩
      rfl
    · rcases v with ⟨vs, vr⟩
      rfl

/-- Modelled from the spec: the claim C8 resolution order, written from the
claim's words: currently visible locals first, then the import table, and
otherwise a NotInScope error carrying the looked-up name with its region and
the imported names together with the visible local names. -/
def Scope.lookupSpec (s : Scope) (ident : String) (region : Region) :
    Except RuntimeError Symbol :=
  match s.locals.hasInScope ident with
  | some (sym, _) => .ok sym
  | none =>
    match lookupImport s.imports ident with
    | some (sym, _) => .ok sym
    | none =>
      .error (.LookupNotInScope ⟨region, ident⟩
        (s.imports.map (fun t => t.1) ++ s.locals.identsInScope))

/-- C8: lookup resolves visible locals first, then imports, and otherwise
reports NotInScope carrying the name, its region, and the full list of
imported and visible local names. -/
theorem lookup_resolution_order (s : Scope) (n : String) (r : Region) :
    s.lookup n r = s.lookupSpec n r := by
  unfold Scope.lookup Scope.lookupSpec Scope.scopeContains Scope.identsInScope
  rcases hin : s.locals.hasInScope n with _ | v
  · rcases him : lookupImport s.imports n with _ | w
    · rfl
    · rcases w with ⟨ws, wr⟩
      rfl
  · rcases v with ⟨vs, vr⟩
    rfl

/-- Overwriting the value of a present key makes lookup return the new
value. -/
theorem vecMapGet_map_overwrite (m : List (Symbol × Alias)) (k : Symbol) (v : Alias)
    (h : m.any (fun p => decide (p.1 = k)) = true) :
    vecMapGet (m.map (fun p => if p.1 = k then (k, v) else p)) k = some v := by
  induction m with
  | nil => simp at h
  | cons p rest ih =>
    rcases p with ⟨pk, pv⟩
    rw [List.map_cons]
    by_cases hpk : pk = k
    · rw [if_pos hpk]
      unfold vecMapGet
      rw [List.findSome?_cons]
      simp
    · rw [if_neg hpk]
      unfold vecMapGet
      rw [List.findSome?_cons]
      rw [show (if ((pk, pv) : Symbol × Alias).1 = k then some (pk, pv).2 else none) = none
        from by simp [hpk]]
      have hr : rest.any (fun p => decide (p.1 = k)) = true := by
        rw [List.any_cons] at h
        simpa [hpk] using h
      exact ih hr

/-- Appending a new key at the end makes lookup return its value when the key
was absent. -/
theorem vecMapGet_append_last (m : List (Symbol × Alias)) (k : Symbol) (v : Alias)
    (h : m.any (fun p => decide (p.1 = k)) = false) :
    vecMapGet (m ++ [(k, v)]) k = some v := by
  induction m with
  | nil =>
    unfold vecMapGet
    rw [List.nil_append, List.findSome?_cons]
    simp
  | cons p rest ih =>
    rcases p with ⟨pk, pv⟩
    have hpk : ¬(pk = k) := by
      intro hc
      rw [List.any_cons] at h
      simp [hc] at h
    rw [List.cons_append]
    unfold vecMapGet
    rw [List.findSome?_cons]
    rw [show (if ((pk, pv) : Symbol × Alias).1 = k then some (pk, pv).2 else none) = none
      from by simp [hpk]]
    have hr : rest.any (fun p => decide (p.1 = k)) = false := by
      rw [List.any_cons] at h
      simpa [hpk] using h
    exact ih hr

/-- Overwriting one key leaves lookups of other keys unchanged. -/
theorem vecMapGet_map_overwrite_ne (m : List (Symbol × Alias)) (k : Symbol) (v : Alias)
    (j : Symbol) (hj : j ≠ k) :
    vecMapGet (m.map (fun p => if p.1 = k then (k, v) else p)) j = vecMapGet m j := by
  induction m with
  | nil => rfl
  | cons p rest ih =>
    rcases p with ⟨pk, pv⟩
    rw [List.map_cons]
    unfold vecMapGet
    rw [List.findSome?_cons, List.findSome?_cons]
    by_cases hpk : pk = k
    · rw [if_pos hpk]
      have hkj : ¬(((k, v) : Symbol × Alias).1 = j) := fun hc => hj hc.symm
      have hpj : ¬(((pk, pv) : Symbol × Alias).1 = j) := by
        show ¬(pk = j)
        rw [hpk]
        exact fun hc => hj hc.symm
      rw [show (if ((k, v) : Symbol × Alias).1 = j then some (k, v).2 else none) = none
        from by simp [hkj]]
      rw [show (if ((pk, pv) : Symbol × Alias).1 = j then some (pk, pv).2 else none) = none
        from by simp [hpj]]
      exact ih
    · rw [if_neg hpk]
      by_cases hpj : pk = j
      · simp [hpj]
      · rw [show (if ((pk, pv) : Symbol × Alias).1 = j then some (pk, pv).2 else none) = none
          from by simp [hpj]]
        exact ih

/-- Appending one key leaves lookups of other keys unchanged. -/
theorem vecMapGet_append_ne (m : List (Symbol × Alias)) (k : Symbol) (v : Alias)
    (j : Symbol) (hj : j ≠ k) :
    vecMapGet (m ++ [(k, v)]) j = vecMapGet m j := by
  induction m with
  | nil =>
    unfold vecMapGet
    rw [List.nil_append, List.findSome?_cons]
    have hkj : ¬(((k, v) : Symbol × Alias).1 = j) := fun hc => hj hc.symm
    rw [if_neg hkj]
  | cons p rest ih =>
    rcases p with ⟨pk, pv⟩
    rw [List.cons_append]
    unfold vecMapGet
    rw [List.findSome?_cons, List.findSome?_cons]
    by_cases hpj : pk = j
    · simp [hpj]
    · rw [show (if ((pk, pv) : Symbol × Alias).1 = j then some (pk, pv).2 else none) = none
        from by simp [hpj]]
      exact ih

/-- Lookup after insertion: the inserted key maps to the new value. -/
theorem vecMapGet_insert_self (m : List (Symbol × Alias)) (k : Symbol) (v : Alias) :
    vecMapGet (vecMapInsert m k v) k = some v := by
  unfold vecMapInsert
  by_cases h : m.any (fun p => decide (p.1 = k)) = true
  · rw [if_pos h]
    exact vecMapGet_map_overwrite m k v h
  · rw [if_neg h]
    exact vecMapGet_append_last m k v (by rwa [Bool.not_eq_true] at h)

/-- Lookup after insertion: every other key is untouched. -/
theorem vecMapGet_insert_ne (m : List (Symbol × Alias)) (k : Symbol) (v : Alias)
    (j : Symbol) (hj : j ≠ k) :
    vecMapGet (vecMapInsert m k v) j = vecMapGet m j := by
  unfold vecMapInsert
  by_cases h : m.any (fun p => decide (p.1 = k)) = true
  · rw [if_pos h]
    exact vecMapGet_map_overwrite_ne m k v j hj
  · rw [if_neg h]
    exact vecMapGet_append_ne m k v j hj

/-- C9: add_alias asserts exactly that every free type variable of the body
is bound by the declared type-variable list (the assertion check is empty
exactly when all body variables are bound, and add_alias yields a result
exactly when the check is empty); under the precondition that all body
variables are bound, the assertion branch is unreachable and the alias is
stored keyed by its Symbol, overwriting any prior alias with the same key
and leaving every other key untouched. -/
theorem addAlias_assert_and_store (s : Scope) (name : Symbol) (r : Region)
    (vars : List (Loc (String × Nat))) (typ : RType) (kind : AliasKind) (k : Symbol)
    (hbound : ∀ v ∈ typ.typeVariables, vars.any (fun lv => decide (lv.value.2 = v)) = true)
    (hk : k ≠ name) :
    (createAliasHidden vars typ = [] ↔
      ∀ v ∈ typ.typeVariables, vars.any (fun lv => decide (lv.value.2 = v)) = true) ∧
    ((s.addAlias name r vars typ kind).isSome = true ↔ createAliasHidden vars typ = []) ∧
    s.addAlias name r vars typ kind =
      some { s with aliases :=
        vecMapInsert s.aliases name (createAlias name r vars typ kind) } ∧
    vecMapGet (vecMapInsert s.aliases name (createAlias name r vars typ kind)) name =
      some (createAlias name r vars typ kind) ∧
    vecMapGet (vecMapInsert s.aliases name (createAlias name r vars typ kind)) k =
      vecMapGet s.aliases k := by
  have hiff : createAliasHidden vars typ = [] ↔
      ∀ v ∈ typ.typeVariables, vars.any (fun lv => decide (lv.value.2 = v)) = true := by
    unfold createAliasHidden
    rw [List.filter_eq_nil_iff]
    constructor
    · intro h v hv
      have h2 := h v hv
      simpa using h2
    · intro h v hv
      simp [h v hv]
  have hhid : createAliasHidden vars typ = [] := hiff.mpr hbound
  refine ⟨hiff, ?_, ?_, vecMapGet_insert_self _ _ _, vecMapGet_insert_ne _ _ _ _ hk⟩
  · unfold Scope.addAlias createAliasChecked
    by_cases hc : createAliasHidden vars typ = []
    · rw [if_pos hc]
      simp [hc]
    · rw [if_neg hc]
      simp [hc]
  · unfold Scope.addAlias createAliasChecked
    rw [if_pos hhid]

/-- C9 at a concrete input: a body with the single type variable 1, bound by
the declared list; the alias is stored and retrievable, and an unrelated key
is untouched. -/
theorem addAlias_assert_and_store_witness :
    (createAliasHidden [⟨0, ("a", 1)⟩] (RType.tvar 1) = [] ↔
      ∀ v ∈ (RType.tvar 1).typeVariables,
        ([⟨0, ("a", 1)⟩] : List (Loc (String × Nat))).any
          (fun lv => decide (lv.value.2 = v)) = true) ∧
    (((Scope.new 0 []).addAlias ⟨0, 5⟩ 4 [⟨0, ("a", 1)⟩] (RType.tvar 1)
        AliasKind.Opaque).isSome = true ↔
      createAliasHidden [⟨0, ("a", 1)⟩] (RType.tvar 1) = []) ∧
    (Scope.new 0 []).addAlias ⟨0, 5⟩ 4 [⟨0, ("a", 1)⟩] (RType.tvar 1) AliasKind.Opaque =
      some { Scope.new 0 [] with
        aliases := vecMapInsert (Scope.new 0 []).aliases ⟨0, 5⟩
          (createAlias ⟨0, 5⟩ 4 [⟨0, ("a", 1)⟩] (RType.tvar 1) AliasKind.Opaque) } ∧
    vecMapGet (vecMapInsert (Scope.new 0 []).aliases ⟨0, 5⟩
        (createAlias ⟨0, 5⟩ 4 [⟨0, ("a", 1)⟩] (RType.tvar 1) AliasKind.Opaque)) ⟨0, 5⟩ =
      some (createAlias ⟨0, 5⟩ 4 [⟨0, ("a", 1)⟩] (RType.tvar 1) AliasKind.Opaque) ∧
    vecMapGet (vecMapInsert (Scope.new 0 []).aliases ⟨0, 5⟩
        (createAlias ⟨0, 5⟩ 4 [⟨0, ("a", 1)⟩] (RType.tvar 1) AliasKind.Opaque)) ⟨0, 6⟩ =
      vecMapGet (Scope.new 0 []).aliases ⟨0, 6⟩ :=
  addAlias_assert_and_store (Scope.new 0 []) ⟨0, 5⟩ 4 [⟨0, ("a", 1)⟩] (RType.tvar 1)
    AliasKind.Opaque ⟨0, 6⟩ (by decide) (by decide)

/-- C10: lookup_opaque_ref requires the sigil: a reference whose first
character is not the sigil (or an empty reference) fails the debug assertion
and yields no result, and on a sigil-led reference the leading character is
stripped before the bare name is resolved. -/
theorem lookupOpaqueRef_requires_sigil (s : Scope) (r : Region) (c : Char)
    (cs ds : List Char) (hc : c ≠ '@') :
    s.lookupOpaqueRef (String.mk ('@' :: cs)) r =
      some (s.lookupOpaqueCore (String.mk cs) r) ∧
    s.lookupOpaqueRef (String.mk (c :: ds)) r = none ∧
    s.lookupOpaqueRef (String.mk []) r = none := by
  refine ⟨rfl, ?_, rfl⟩
  unfold Scope.lookupOpaqueRef
  split
  · rename_i rest heq
    injection heq with h1 h2
    exact absurd h1 hc
  · rfl

/-- C10 at a concrete input: the reference "@A" resolves the bare name "A";
the references "xA" and "" fail the assertion. -/
theorem lookupOpaqueRef_requires_sigil_witness :
    (Scope.new 0 []).lookupOpaqueRef (String.mk ('@' :: ['A'])) 0 =
      some ((Scope.new 0 []).lookupOpaqueCore (String.mk ['A']) 0) ∧
    (Scope.new 0 []).lookupOpaqueRef (String.mk ('x' :: ['A'])) 0 = none ∧
    (Scope.new 0 []).lookupOpaqueRef (String.mk []) 0 = none :=
  lookupOpaqueRef_requires_sigil (Scope.new 0 []) 0 'x' ['A'] ['A'] (by decide)

end Roc
